import Mathlib

/-!
Verification of the Markdown-to-HTML rendering core of better-markdown-to-pdf
(src/lib/markdown.ts): the custom block/inline math rules, the fence override
(mermaid special case plus syntax-highlight wrapper), the HTML escaping helper,
the math render rules, and the sanitization step of renderMarkdownSafe.

Strings are modelled as lists of characters (a faithful model of JavaScript
strings for the inputs at hand); JavaScript string indices become Nat indices,
out-of-range charCodeAt reads become a default character that equals none of
the compared characters, mirroring NaN comparisons.
-/

namespace MdPdf

/-- Character at index i, with an out-of-range default (mirrors charCodeAt
returning NaN, which compares unequal to every code unit). -/
def charAt (l : List Char) (i : Nat) : Char := l.getD i (Char.ofNat 0)

/-- JavaScript s.slice(a, b) for 0 <= a <= b. -/
def slice (l : List Char) (a b : Nat) : List Char := (l.drop a).take (b - a)

/-- Whitespace test used by JavaScript String.prototype.trim on the
character repertoire that occurs in this pipeline. -/
def isWsChar (c : Char) : Bool := c = ' ' || c = '\t' || c = '\n' || c = '\r'

/-- JavaScript s.trim(). -/
def trimChars (l : List Char) : List Char :=
  ((l.dropWhile isWsChar).reverse.dropWhile isWsChar).reverse

/-- One global single-character replace pass, the meaning of
str.replace(/c/g, repl). -/
def replaceChar (c : Char) (repl : List Char) (s : List Char) : List Char :=
  s.flatMap (fun x => if x = c then repl else [x])

/-- escapeHtml from src/lib/markdown.ts: four sequential global replaces,
ampersand first. -/
def escapeHtml (s : List Char) : List Char :=
  replaceChar '"' (("&quot;").data)
    (replaceChar '>' (("&gt;").data)
      (replaceChar '<' (("&lt;").data)
        (replaceChar '&' (("&amp;").data) s)))

/-- The per-character expansion that the four replace passes of escapeHtml
perform jointly. -/
def escChar (c : Char) : List Char :=
  if c = '&' then ("&amp;").data
  else if c = '<' then ("&lt;").data
  else if c = '>' then ("&gt;").data
  else if c = '"' then ("&quot;").data
  else [c]

/-- Substring search from a given index, the meaning of
src.indexOf(pat, i); fuel-based so that it computes by kernel reduction. -/
def indexOfGo (l pat : List Char) : Nat → Nat → Option Nat
  | 0, _ => none
  | fuel + 1, i =>
    if l.length < i + pat.length then none
    else if slice l i (i + pat.length) = pat then some i
    else indexOfGo l pat fuel (i + 1)

/-- JavaScript l.indexOf(pat, i), as an Option (none for -1). -/
def indexOfFrom (l pat : List Char) (i : Nat) : Option Nat :=
  indexOfGo l pat (l.length + 1 - i) i

/-- Does pat occur in l as a contiguous substring? -/
def containsSub (l pat : List Char) : Bool :=
  (indexOfFrom l pat 0).isSome

/-- Token stream entries relevant to the math extension (math_block and
math_inline are the tokens the custom rules push; text and paragraph model
the host parser's fallback tokens). -/
inductive Token where
  | math_block (content : List Char)
  | math_inline (content : List Char)
  | text (content : List Char)
  | paragraph (content : List Char)
  deriving DecidableEq, Repr

/-- Inline parser state: markdown-it StateInline restricted to the fields
the inline math rule reads and writes (src, pos, posMax, tokens). -/
structure InlineState where
  src : List Char
  pos : Nat
  posMax : Nat
  tokens : List Token
  deriving DecidableEq, Repr

/-- The closing-delimiter scan of the inline math rule: first index e with
i <= e < pmax such that src[e] is a dollar not preceded by a backslash;
returns its stopping index (>= pmax when no closing dollar exists). -/
def findDollarGo (src : List Char) (pmax : Nat) : Nat → Nat → Nat
  | 0, i => i
  | fuel + 1, i =>
    if pmax ≤ i then i
    else if charAt src i = '$' ∧ charAt src (i - 1) ≠ '\\' then i
    else findDollarGo src pmax fuel (i + 1)

/-- The while-loop of inlineMathRule that searches the closing dollar. -/
def findDollar (src : List Char) (i pmax : Nat) : Nat :=
  findDollarGo src pmax (pmax - i) i

/-- inlineMathRule from src/lib/markdown.ts. Returns none when the rule
declines (returned false without touching state) and some of the updated
state when it returns true. Note that the position advances past the
closing delimiter even in silent mode; only the token push is guarded. -/
def inlineMathRule (st : InlineState) (silent : Bool) : Option InlineState :=
  let start := st.pos
  let pmax := st.posMax
  if charAt st.src start ≠ '$' then none
  else if start + 1 < pmax ∧ charAt st.src (start + 1) = '$' then none
  else if 0 < start ∧ charAt st.src (start - 1) = '\\' then none
  else
    let e := findDollar st.src (start + 1) pmax
    if pmax ≤ e then none
    else
      let content := slice st.src (start + 1) e
      if trimChars content = [] then none
      else
        some { st with
          tokens := if silent then st.tokens else st.tokens ++ [Token.math_inline content],
          pos := e + 1 }

/-- Block parser state: markdown-it StateBlock restricted to the fields the
block math rule reads and writes (src, line begin/end marks, indentation
shifts, the current line and the token stream). -/
structure BlockState where
  src : List Char
  bMarks : List Nat
  eMarks : List Nat
  tShift : List Nat
  line : Nat
  tokens : List Token
  deriving DecidableEq, Repr

/-- The text of line j with its indentation stripped, i.e.
src.slice(bMarks[j] + tShift[j], eMarks[j]). -/
def lineText (st : BlockState) (j : Nat) : List Char :=
  slice st.src (st.bMarks.getD j 0 + st.tShift.getD j 0) (st.eMarks.getD j 0)

/-- The closing-line scan of the multi-line branch of blockMathRule: first
line index j in [j0, endLine) whose trimmed text is exactly two dollars. -/
def findCloseGo (st : BlockState) (endLine : Nat) : Nat → Nat → Option Nat
  | 0, _ => none
  | fuel + 1, j =>
    if endLine ≤ j then none
    else if trimChars (lineText st j) = ('$' :: '$' :: []) then some j
    else findCloseGo st endLine fuel (j + 1)

/-- The for-loop of blockMathRule that searches the closing delimiter line. -/
def findCloseLine (st : BlockState) (j endLine : Nat) : Option Nat :=
  findCloseGo st endLine (endLine - j) j

/-- One line of state.getLines: slice from bMarks[j] plus at most indent
columns of its leading whitespace, up to eMarks[j]. -/
def lineFrom (st : BlockState) (j indent : Nat) : List Char :=
  slice st.src (st.bMarks.getD j 0 + min indent (st.tShift.getD j 0)) (st.eMarks.getD j 0)

/-- state.getLines(b, e, indent, false): the lines b..e-1 joined with
newlines, each stripped of up to indent columns of indentation. -/
def getLinesGo (st : BlockState) (indent : Nat) : Nat → Nat → Nat → List Char
  | 0, _, _ => []
  | fuel + 1, j, e =>
    if e ≤ j then []
    else if j + 1 < e then lineFrom st j indent ++ '\n' :: getLinesGo st indent fuel (j + 1) e
    else lineFrom st j indent

def getLines (st : BlockState) (b e indent : Nat) : List Char :=
  getLinesGo st indent (e - b) b e

/-- blockMathRule from src/lib/markdown.ts. none = rule declined (returned
false, no state change); some st' = rule returned true with st' the updated
state. In silent mode a successful match returns the state unchanged. -/
def blockMathRule (st : BlockState) (startLine endLine : Nat) (silent : Bool) :
    Option BlockState :=
  let startPos := st.bMarks.getD startLine 0 + st.tShift.getD startLine 0
  let maxPos := st.eMarks.getD startLine 0
  if maxPos < startPos + 2 then none
  else if slice st.src startPos (startPos + 2) ≠ ('$' :: '$' :: []) then none
  else
    let sameLine := indexOfFrom st.src ('$' :: '$' :: []) (startPos + 2)
    match sameLine with
    | some sameLineEnd =>
      if sameLineEnd < maxPos then
        if silent then some st
        else
          let content := trimChars (slice st.src (startPos + 2) sameLineEnd)
          some { st with
            tokens := st.tokens ++ [Token.math_block content],
            line := startLine + 1 }
      else
        match findCloseLine st (startLine + 1) endLine with
        | none => none
        | some nextLine =>
          if silent then some st
          else
            let content := trimChars (getLines st (startLine + 1) nextLine (st.tShift.getD startLine 0))
            some { st with
              tokens := st.tokens ++ [Token.math_block content],
              line := nextLine + 1 }
    | none =>
      match findCloseLine st (startLine + 1) endLine with
      | none => none
      | some nextLine =>
        if silent then some st
        else
          let content := trimChars (getLines st (startLine + 1) nextLine (st.tShift.getD startLine 0))
          some { st with
            tokens := st.tokens ++ [Token.math_block content],
            line := nextLine + 1 }

/-- Line spans (begin offset, end offset) of a source text, splitting on
newline characters; the end offset of a line is the offset of its newline
or the end of the input. -/
def spansGo : List Char → Nat → Nat → List (Nat × Nat)
  | [], start, cur => [(start, cur)]
  | c :: rest, start, cur =>
    if c = '\n' then (start, cur) :: spansGo rest (cur + 1) (cur + 1)
    else spansGo rest start (cur + 1)

def lineSpans (src : List Char) : List (Nat × Nat) := spansGo src 0 0

def countIndent (l : List Char) : Nat :=
  (l.takeWhile (fun c => c = ' ' || c = '\t')).length

/-- The block state the host parser hands to block rules for a source text:
line marks computed from the newline structure, indentation shifts from the
leading whitespace of each line. -/
def mkBlockState (src : List Char) : BlockState :=
  let sp := lineSpans src
  { src := src
    bMarks := sp.map (fun p => p.1)
    eMarks := sp.map (fun p => p.2)
    tShift := sp.map (fun p => countIndent (slice src p.1 p.2))
    line := 0
    tokens := [] }

def lineCount (src : List Char) : Nat := (lineSpans src).length

/-- A line containing at most whitespace (state.isEmpty in the host parser). -/
def isBlankLine (st : BlockState) (j : Nat) : Bool :=
  trimChars (slice st.src (st.bMarks.getD j 0) (st.eMarks.getD j 0)) = []

/-- Modelled from the spec: the host parser's paragraph rule consumes
consecutive non-blank lines; this finds its stopping line. -/
def paraEndGo (st : BlockState) (endLine : Nat) : Nat → Nat → Nat
  | 0, j => j
  | fuel + 1, j =>
    if endLine ≤ j then endLine
    else if isBlankLine st j then j
    else paraEndGo st endLine fuel (j + 1)

def paraEnd (st : BlockState) (j endLine : Nat) : Nat :=
  paraEndGo st endLine (endLine - j) j

/-- Modelled from the spec: the host block-parsing loop (markdown-it's
tokenizer is not part of this repository). Blank lines are skipped; at each
line the block math rule is tried first; when it declines the line falls
through to default paragraph handling, which consumes lines up to the next
blank line and pushes one paragraph token with the trimmed joined text. -/
def tokenizeBlocksGo (endLine : Nat) : Nat → BlockState → BlockState
  | 0, st => st
  | fuel + 1, st =>
    if endLine ≤ st.line then st
    else if isBlankLine st st.line then
      tokenizeBlocksGo endLine fuel { st with line := st.line + 1 }
    else
      match blockMathRule st st.line endLine false with
      | some st' => tokenizeBlocksGo endLine fuel st'
      | none =>
        let nl := paraEnd st (st.line + 1) endLine
        let content := trimChars (getLines st st.line nl 0)
        tokenizeBlocksGo endLine fuel
          { st with tokens := st.tokens ++ [Token.paragraph content], line := nl }

/-- Block-tokenize a whole document. -/
def tokenizeDoc (src : List Char) : List Token :=
  (tokenizeBlocksGo (lineCount src) (lineCount src + 2) (mkBlockState src)).tokens

/-- ASCII punctuation, the code-point set markdown-it's backslash-escape
rule recognizes after a backslash (includes the dollar sign). -/
def isAsciiPunct (c : Char) : Bool :=
  (33 ≤ c.toNat && c.toNat ≤ 47) || (58 ≤ c.toNat && c.toNat ≤ 64) ||
  (91 ≤ c.toNat && c.toNat ≤ 96) || (123 ≤ c.toNat && c.toNat ≤ 126)

/-- Modelled from the spec: the host parser's backslash-escape inline rule
(markdown-it's escape rule is not part of this repository): a backslash
followed by ASCII punctuation renders that punctuation literally and the
cursor skips both characters. The custom inline math rule runs before it. -/
def escapeRule (st : InlineState) : Option InlineState :=
  if charAt st.src st.pos = '\\' ∧ st.pos + 1 < st.posMax ∧
      isAsciiPunct (charAt st.src (st.pos + 1)) then
    some { st with
      tokens := st.tokens ++ [Token.text [charAt st.src (st.pos + 1)]],
      pos := st.pos + 2 }
  else none

/-- Modelled from the spec: the host inline-parsing loop; at each position
the rules are tried in order (inline math first, then escape), and a
position no rule claims becomes literal text. -/
def inlineScanGo : Nat → InlineState → InlineState
  | 0, st => st
  | fuel + 1, st =>
    if st.posMax ≤ st.pos then st
    else
      match inlineMathRule st false with
      | some st' => inlineScanGo fuel st'
      | none =>
        match escapeRule st with
        | some st' => inlineScanGo fuel st'
        | none =>
          inlineScanGo fuel
            { st with tokens := st.tokens ++ [Token.text [charAt st.src st.pos]],
                      pos := st.pos + 1 }

/-- Inline-tokenize a text run. -/
def inlineScan (src : List Char) : InlineState :=
  inlineScanGo (src.length + 1) { src := src, pos := 0, posMax := src.length, tokens := [] }

/-- Number of math tokens in a token stream. -/
def countMath (l : List Token) : Nat :=
  l.countP (fun t =>
    match t with
    | Token.math_block _ => true
    | Token.math_inline _ => true
    | _ => false)

/-- The literal text carried by the text tokens of a stream, concatenated. -/
def textOfTokens (l : List Token) : List Char :=
  l.flatMap (fun t =>
    match t with
    | Token.text c => c
    | _ => [])

/-- The thrown value of a failed katex.renderToString call: some message for
an Error instance, none for a non-Error throw. -/
def errMsg : Option (List Char) → List Char
  | some m => m
  | none => ("Unknown error").data

/-- The math typesetting engine, as the interface the render rules consume:
given the display mode and the source, either markup (ok) or a thrown
value (error). The render rules must behave correctly for every engine. -/
def KatexFn : Type := Bool → List Char → Except (Option (List Char)) (List Char)

/-- md.renderer.rules.math_block from src/lib/markdown.ts: typeset in
display mode inside the katex-block container; on a throw, a math-error
div carrying the escaped message. -/
def renderMathBlock (k : KatexFn) (content : List Char) : List Char :=
  match k true content with
  | Except.ok r => ("<div class=\"katex-block\">").data ++ r ++ ("</div>").data
  | Except.error e =>
    ("<div class=\"math-error\">Math error: ").data ++ escapeHtml (errMsg e) ++ ("</div>").data

/-- md.renderer.rules.math_inline from src/lib/markdown.ts: typeset in
inline mode with no extra wrapper; on a throw, a math-error span carrying
the escaped message. -/
def renderMathInline (k : KatexFn) (content : List Char) : List Char :=
  match k false content with
  | Except.ok r => r
  | Except.error e =>
    ("<span class=\"math-error\">Math error: ").data ++ escapeHtml (errMsg e) ++ ("</span>").data

/-- Render one token (math tokens via the custom rules; text escaped,
paragraphs wrapped, mirroring the host renderer's defaults). -/
def renderToken (k : KatexFn) : Token → List Char
  | Token.math_block c => renderMathBlock k c
  | Token.math_inline c => renderMathInline k c
  | Token.text c => escapeHtml c
  | Token.paragraph c => ("<p>").data ++ escapeHtml c ++ ("</p>").data

/-- Render a token stream by concatenating each token's fragment in order. -/
def renderTokens (k : KatexFn) : List Token → List Char
  | [] => []
  | t :: ts => renderToken k t ++ renderTokens k ts

/-- The syntax highlighter, as the interface the fence path consumes:
getLanguage says whether a language is registered; highlight returns
markup or throws (none). -/
structure Hljs where
  getLanguage : List Char → Bool
  highlight : List Char → List Char → Option (List Char)

/-- The highlight option installed by createMarkdownRenderer: known
languages go through hljs with a try/catch falling back to escaping;
everything else is escaped. -/
def mdHighlight (h : Hljs) (str lang : List Char) : List Char :=
  if lang ≠ [] ∧ h.getLanguage lang then
    match h.highlight str lang with
    | some v => v
    | none => escapeHtml str
  else escapeHtml str

/-- A fence token: the info string after the opening fence and the raw body. -/
structure FenceTok where
  info : List Char
  content : List Char
  deriving DecidableEq, Repr

/-- md.renderer.rules.fence from src/lib/markdown.ts: a trimmed info string
equal to mermaid yields a bare mermaid div with the escaped body; otherwise
a pre/code wrapper whose code is the highlighter output (or the escaped
body when the highlighter returns the empty string), with the trimmed info
string interpolated into the language class attribute. -/
def fenceRule (h : Hljs) (tok : FenceTok) : List Char :=
  let lang := trimChars tok.info
  if lang = ("mermaid").data then
    ("<div class=\"mermaid\">").data ++ escapeHtml tok.content ++ ("</div>").data
  else
    let hl := mdHighlight h tok.content lang
    let code := if hl = [] then escapeHtml tok.content else hl
    let langClass :=
      if lang ≠ [] then (" class=\"language-").data ++ lang ++ ("\"").data else []
    ("<pre class=\"hljs\"><code").data ++ langClass ++ ('>' :: code) ++ ("</code></pre>").data

/-- A concrete highlighter with no registered languages whose highlight
call throws; used to instantiate theorems at concrete inputs. -/
def hljsNone : Hljs :=
  { getLanguage := fun _ => false, highlight := fun _ _ => none }

/-- The standard HTML entity decoder for the four entities escapeHtml
emits. escapeHtml itself is the source's function; this decoder expresses
the spec's notion of HTML-unescaping the escaped text. -/
def unescapeHtml : List Char → List Char
  | [] => []
  | c :: rest =>
    if c = '&' then
      match rest with
      | 'a' :: 'm' :: 'p' :: ';' :: r2 => '&' :: unescapeHtml r2
      | 'l' :: 't' :: ';' :: r2 => '<' :: unescapeHtml r2
      | 'g' :: 't' :: ';' :: r2 => '>' :: unescapeHtml r2
      | 'q' :: 'u' :: 'o' :: 't' :: ';' :: r2 => '"' :: unescapeHtml r2
      | r2 => c :: unescapeHtml r2
    else c :: unescapeHtml rest

/-- Name characters of HTML tags and attribute names. -/
def isNameChar (c : Char) : Bool := c.isAlpha || c.isDigit || c = '-'

/-- Modes of the HTML surface-syntax scanner. -/
inductive SMode where
  | text
  | tagStart
  | tagName (allowAttrs : Bool) (seen : Bool)
  | attrs
  | attrName
  | valQuote
  | value
  | afterVal
  deriving DecidableEq, Repr

/-- A lexical well-formedness scanner for HTML fragments: tags are angle
brackets around a name, attributes are name="value" pairs whose quoted
values contain no double quote, and the fragment ends outside any tag.
This checks the well-formed-elements-and-attribute-values part of the
fence contract. -/
def scanHtml : SMode → List Char → Bool
  | SMode.text, [] => true
  | _, [] => false
  | SMode.text, c :: r => if c = '<' then scanHtml SMode.tagStart r else scanHtml SMode.text r
  | SMode.tagStart, c :: r =>
    if c = '/' then scanHtml (SMode.tagName false false) r
    else if isNameChar c then scanHtml (SMode.tagName true true) r
    else false
  | SMode.tagName allow seen, c :: r =>
    if c = '>' then seen && scanHtml SMode.text r
    else if c = ' ' then seen && allow && scanHtml SMode.attrs r
    else if isNameChar c then scanHtml (SMode.tagName allow true) r
    else false
  | SMode.attrs, c :: r =>
    if c = '>' then scanHtml SMode.text r
    else if c = ' ' then scanHtml SMode.attrs r
    else if isNameChar c then scanHtml SMode.attrName r
    else false
  | SMode.attrName, c :: r =>
    if c = '=' then scanHtml SMode.valQuote r
    else if isNameChar c then scanHtml SMode.attrName r
    else false
  | SMode.valQuote, c :: r => if c = '"' then scanHtml SMode.value r else false
  | SMode.value, c :: r =>
    if c = '"' then scanHtml SMode.afterVal r else scanHtml SMode.value r
  | SMode.afterVal, c :: r =>
    if c = '>' then scanHtml SMode.text r
    else if c = ' ' then scanHtml SMode.attrs r
    else false

/-- Lexical well-formedness of an HTML fragment. -/
def htmlWellFormed (l : List Char) : Bool := scanHtml SMode.text l

mutual
/-- A parsed HTML node: text, or an element with tag, attributes and
children. Rendered HTML strings are modelled at this level because the
sanitizer operates on the parsed document. -/
inductive HNode where
  | text (s : List Char)
  | elem (tag : List Char) (attrs : List (List Char × List Char)) (children : NodeList)
/-- A sequence of sibling HTML nodes. -/
inductive NodeList where
  | nil
  | cons (n : HNode) (rest : NodeList)
end

def appendNL : NodeList → NodeList → NodeList
  | NodeList.nil, b => b
  | NodeList.cons n r, b => NodeList.cons n (appendNL r b)

/-- Elements whose entire subtree is removed by the sanitizer (scripting
and style-injection containers). -/
def dropWithContent (tag : List Char) : Bool :=
  tag = ("script").data || tag = ("style").data || tag = ("iframe").data ||
  tag = ("object").data || tag = ("embed").data || tag = ("template").data

/-- Modelled from the spec: the sanitizer's element allow-list (DOMPurify
defaults are not part of this repository) extended by the ADD_TAGS list of
renderMarkdownSafe (the MathML vocabulary of the math markup). -/
def allowedTag (tag : List Char) : Bool :=
  tag = ("a").data || tag = ("b").data || tag = ("blockquote").data ||
  tag = ("br").data || tag = ("code").data || tag = ("div").data ||
  tag = ("em").data || tag = ("h1").data || tag = ("h2").data ||
  tag = ("h3").data || tag = ("h4").data || tag = ("h5").data ||
  tag = ("h6").data || tag = ("hr").data || tag = ("i").data ||
  tag = ("img").data || tag = ("input").data || tag = ("li").data ||
  tag = ("ol").data || tag = ("p").data || tag = ("pre").data ||
  tag = ("span").data || tag = ("strong").data || tag = ("table").data ||
  tag = ("tbody").data || tag = ("td").data || tag = ("th").data ||
  tag = ("thead").data || tag = ("tr").data || tag = ("ul").data ||
  tag = ("math").data || tag = ("semantics").data || tag = ("mrow").data ||
  tag = ("mi").data || tag = ("mo").data || tag = ("mn").data ||
  tag = ("msup").data || tag = ("msub").data || tag = ("mfrac").data ||
  tag = ("mroot").data || tag = ("msqrt").data || tag = ("mtext").data ||
  tag = ("mspace").data || tag = ("mover").data || tag = ("munder").data ||
  tag = ("mtable").data || tag = ("mtr").data || tag = ("mtd").data ||
  tag = ("annotation").data

def startsWithL (pre l : List Char) : Bool :=
  slice l 0 pre.length = pre

/-- Modelled from the spec: the sanitizer's attribute allow-list (DOMPurify
defaults plus the ADD_ATTR list of renderMarkdownSafe plus data attributes
via ALLOW_DATA_ATTR). Event-handler attributes are not on it. -/
def allowedAttr (name : List Char) : Bool :=
  name = ("class").data || name = ("style").data || name = ("aria-hidden").data ||
  name = ("focusable").data || name = ("role").data || name = ("xmlns").data ||
  name = ("encoding").data || name = ("href").data || name = ("src").data ||
  name = ("alt").data || name = ("title").data || name = ("type").data ||
  name = ("checked").data || name = ("disabled").data || name = ("id").data ||
  name = ("width").data || name = ("height").data ||
  startsWithL (("data-").data) name

mutual
/-- Modelled from the spec: the allow-list sanitization pass of
renderMarkdownSafe (DOMPurify is an external dependency). An allow-listed
element is kept with its attributes filtered through the attribute
allow-list; a scripting container is removed with its whole subtree; any
other disallowed element is removed while its sanitized children are
spliced into its place. -/
def sanitizeNode : HNode → NodeList
  | HNode.text s => NodeList.cons (HNode.text s) NodeList.nil
  | HNode.elem tag attrs children =>
    if dropWithContent tag then NodeList.nil
    else if allowedTag tag then
      NodeList.cons
        (HNode.elem tag (attrs.filter (fun p => allowedAttr p.1)) (sanitizeL children))
        NodeList.nil
    else sanitizeL children
/-- Sanitize a sequence of sibling nodes. -/
def sanitizeL : NodeList → NodeList
  | NodeList.nil => NodeList.nil
  | NodeList.cons n rest => appendNL (sanitizeNode n) (sanitizeL rest)
end

/-- Void elements serialized without a closing tag. -/
def isVoidTag (tag : List Char) : Bool :=
  tag = ("img").data || tag = ("br").data || tag = ("hr").data || tag = ("input").data

def serAttrs (attrs : List (List Char × List Char)) : List Char :=
  attrs.flatMap (fun p => ' ' :: p.1 ++ '=' :: '"' :: escapeHtml p.2 ++ ('"' :: []))

mutual
/-- Serialize a node back to HTML text (text nodes escaped, attribute
values quoted and escaped). -/
def serializeN : HNode → List Char
  | HNode.text s => escapeHtml s
  | HNode.elem tag attrs children =>
    '<' :: tag ++ serAttrs attrs ++ '>' :: serializeL children ++
      (if isVoidTag tag then [] else '<' :: '/' :: tag ++ ('>' :: []))
/-- Serialize a sequence of sibling nodes. -/
def serializeL : NodeList → List Char
  | NodeList.nil => []
  | NodeList.cons n rest => serializeN n ++ serializeL rest
end

/-- The options record of renderMarkdownSafe restricted to the sanitize
flag (absent, true, or false). -/
structure RenderOpts where
  sanitize : Option Bool := none
  deriving DecidableEq, Repr

/-- renderMarkdownSafe's sanitize step from src/lib/markdown.ts, operating
on the parsed rendered document: unless options.sanitize is explicitly
false, the DOMPurify pass runs; otherwise the rendered HTML is returned
unfiltered. -/
def renderMarkdownSafeModel (rendered : NodeList) (opts : RenderOpts) : List Char :=
  if opts.sanitize = some false then serializeL rendered
  else serializeL (sanitizeL rendered)

mutual
/-- No script element anywhere in the node, and no attribute whose name
starts with the two characters of an event-handler prefix. -/
def safeN : HNode → Bool
  | HNode.text _ => true
  | HNode.elem tag attrs children =>
    decide (tag ≠ ("script").data) &&
      attrs.all (fun p => !startsWithL (("on").data) p.1) && safeL children
/-- The safety predicate over a sequence of sibling nodes. -/
def safeL : NodeList → Bool
  | NodeList.nil => true
  | NodeList.cons n rest => safeN n && safeL rest
end

/-- Modelled from the spec: the parsed rendered HTML of the XSS probe
input, markdown's HTML passthrough leaving the script element intact. -/
def probeScript : NodeList :=
  NodeList.cons (HNode.elem (("script").data) [] (NodeList.cons (HNode.text (("alert(1)").data)) NodeList.nil)) NodeList.nil

/-- Modelled from the spec: the parsed rendered HTML of the event-handler
probe input, a paragraph wrapping the img element with its onerror
attribute. -/
def probeImg : NodeList :=
  NodeList.cons
    (HNode.elem (("p").data) []
      (NodeList.cons
        (HNode.elem (("img").data)
          [((("src").data), (("x").data)), ((("onerror").data), (("alert(1)").data))]
          NodeList.nil)
        NodeList.nil))
    NodeList.nil

/-- The throwing math engine used to instantiate the error-path theorem. -/
def kBoom : KatexFn := fun _ _ => Except.error (some (("boom").data))

/-- A concrete mermaid fence token. -/
def tokMermaid : FenceTok := { info := ("mermaid").data, content := ("a<b").data }

/-- A concrete fence token with an unregistered language. -/
def tokJs : FenceTok := { info := ("js").data, content := ("a<b&c").data }

/-- A concrete fence token whose info string contains a double quote. -/
def tokQuote : FenceTok := { info := 'a' :: '"' :: 'b' :: [], content := 'c' :: [] }

/-- A concrete inline state on which the silent inline math rule matches. -/
def stIn : InlineState := { src := ("$x$").data, pos := 0, posMax := 3, tokens := [] }

/-- The state the non-silent inline math rule produces from stIn. -/
def stInAfterF : InlineState :=
  { src := ("$x$").data, pos := 3, posMax := 3, tokens := [Token.math_inline ('x' :: [])] }

/-- A concrete inline state sitting on a whitespace-only dollar span. -/
def stEmptySpan : InlineState := { src := ("$ $").data, pos := 0, posMax := 3, tokens := [] }

/-- A concrete inline state sitting on an escaped dollar. -/
def stEscDollar : InlineState := { src := ("\\$10").data, pos := 1, posMax := 4, tokens := [] }

/-- The state the silent inline math rule produces from stIn. -/
def stInAfter : InlineState := { src := ("$x$").data, pos := 3, posMax := 3, tokens := [] }

/-- A concrete block state on which the silent block math rule matches. -/
def stBlk : BlockState := mkBlockState (("$$x$$").data)

/-- A concrete block state whose opening dollars are never closed. -/
def stUnterm : BlockState := mkBlockState (("$$\nx^2").data)

/- ------------------------------------------------------------------ -/
/- Lemmas about escapeHtml                                             -/
/- ------------------------------------------------------------------ -/

theorem replaceChar_append (c : Char) (r a b : List Char) :
    replaceChar c r (a ++ b) = replaceChar c r a ++ replaceChar c r b := by
  simp [replaceChar]

theorem escapeHtml_nil : escapeHtml [] = [] := rfl

theorem escapeHtml_cons (c : Char) (s : List Char) :
    escapeHtml (c :: s) = escChar c ++ escapeHtml s := by
  by_cases h1 : c = '&'
  · subst h1; simp [escapeHtml, replaceChar, escChar]
  · by_cases h2 : c = '<'
    · subst h2; simp [escapeHtml, replaceChar, escChar]
    · by_cases h3 : c = '>'
      · subst h3; simp [escapeHtml, replaceChar, escChar]
      · by_cases h4 : c = '"'
        · subst h4; simp [escapeHtml, replaceChar, escChar]
        · simp [escapeHtml, replaceChar, escChar, h1, h2, h3, h4]

theorem unescape_cons_ne (c : Char) (l : List Char) (hc : c ≠ '&') :
    unescapeHtml (c :: l) = c :: unescapeHtml l := by
  rw [unescapeHtml.eq_def]
  simp [hc]

/-- Decoding inverts encoding: the round-trip law of the escape pass. -/
theorem unescape_escape (s : List Char) : unescapeHtml (escapeHtml s) = s := by
  induction s with
  | nil => rfl
  | cons c s ih =>
    rw [escapeHtml_cons]
    by_cases h1 : c = '&'
    · subst h1
      show unescapeHtml ('&' :: 'a' :: 'm' :: 'p' :: ';' :: escapeHtml s) = _
      rw [unescapeHtml]
      simp [ih]
    · by_cases h2 : c = '<'
      · subst h2
        show unescapeHtml ('&' :: 'l' :: 't' :: ';' :: escapeHtml s) = _
        rw [unescapeHtml]
        simp [ih]
      · by_cases h3 : c = '>'
        · subst h3
          show unescapeHtml ('&' :: 'g' :: 't' :: ';' :: escapeHtml s) = _
          rw [unescapeHtml]
          simp [ih]
        · by_cases h4 : c = '"'
          · subst h4
            show unescapeHtml ('&' :: 'q' :: 'u' :: 'o' :: 't' :: ';' :: escapeHtml s) = _
            rw [unescapeHtml]
            simp [ih]
          · have : escChar c = [c] := by simp [escChar, h1, h2, h3, h4]
            rw [this]
            show unescapeHtml (c :: escapeHtml s) = _
            rw [unescape_cons_ne c _ h1, ih]

theorem escChar_no_lt (c : Char) : '<' ∉ escChar c := by
  by_cases h1 : c = '&'
  · subst h1; decide
  · by_cases h2 : c = '<'
    · subst h2; decide
    · by_cases h3 : c = '>'
      · subst h3; decide
      · by_cases h4 : c = '"'
        · subst h4; decide
        · simp [escChar, h1, h2, h3, h4]
          intro h; exact h2 h.symm

/-- The escaped text contains no raw angle bracket opener. -/
theorem escapeHtml_no_lt (s : List Char) : '<' ∉ escapeHtml s := by
  induction s with
  | nil => simp [escapeHtml_nil]
  | cons c s ih =>
    rw [escapeHtml_cons]
    intro h
    rcases List.mem_append.mp h with h' | h'
    · exact escChar_no_lt c h'
    · exact ih h'

/- ------------------------------------------------------------------ -/
/- Lemmas about the HTML surface scanner                               -/
/- ------------------------------------------------------------------ -/

/-- Text without a raw angle bracket opener is neutral for the scanner in
text mode. -/
theorem scanText_append (a : List Char) (ha : '<' ∉ a) (r : List Char) :
    scanHtml SMode.text (a ++ r) = scanHtml SMode.text r := by
  induction a with
  | nil => rfl
  | cons c a ih =>
    have hc : c ≠ '<' := fun h => ha (h ▸ List.mem_cons_self c a)
    have ha' : '<' ∉ a := fun h => ha (List.mem_cons_of_mem c h)
    show scanHtml SMode.text (c :: (a ++ r)) = _
    simp only [scanHtml, if_neg hc]
    exact ih ha'

/-- Quote-free text is neutral for the scanner inside an attribute value. -/
theorem scanValue_append (a : List Char) (ha : '"' ∉ a) (r : List Char) :
    scanHtml SMode.value (a ++ r) = scanHtml SMode.value r := by
  induction a with
  | nil => rfl
  | cons c a ih =>
    have hc : c ≠ '"' := fun h => ha (h ▸ List.mem_cons_self c a)
    have ha' : '"' ∉ a := fun h => ha (List.mem_cons_of_mem c h)
    show scanHtml SMode.value (c :: (a ++ r)) = _
    simp only [scanHtml, if_neg hc]
    exact ih ha'

/- ------------------------------------------------------------------ -/
/- Lemmas about the inline math rule                                   -/
/- ------------------------------------------------------------------ -/

theorem findDollarGo_spec (src : List Char) (pmax : Nat) :
    ∀ (fuel i : Nat), pmax ≤ fuel + i →
      ((findDollarGo src pmax fuel i < pmax →
          charAt src (findDollarGo src pmax fuel i) = '$' ∧
          charAt src (findDollarGo src pmax fuel i - 1) ≠ '\\')
        ∧ i ≤ findDollarGo src pmax fuel i) := by
  intro fuel
  induction fuel with
  | zero =>
    intro i h
    simp only [findDollarGo]
    exact ⟨fun hlt => absurd hlt (by omega), Nat.le_refl i⟩
  | succ fuel ih =>
    intro i h
    simp only [findDollarGo]
    split
    · exact ⟨fun hlt => absurd hlt (by omega), Nat.le_refl i⟩
    · split
      · rename_i hcond
        exact ⟨fun _ => hcond, Nat.le_refl i⟩
      · have h' : pmax ≤ fuel + (i + 1) := by omega
        obtain ⟨h1, h2⟩ := ih (i + 1) h'
        exact ⟨h1, by omega⟩

theorem findDollar_spec (src : List Char) (i pmax : Nat) :
    (findDollar src i pmax < pmax →
      charAt src (findDollar src i pmax) = '$' ∧
      charAt src (findDollar src i pmax - 1) ≠ '\\')
    ∧ i ≤ findDollar src i pmax :=
  findDollarGo_spec src pmax (pmax - i) i (by omega)

/-- Shape of a successful inline math rule application: the closing
delimiter is inside the scan window, the cursor ends right past it, the
content is non-blank, and tokens change only when not silent. -/
theorem inlineMathRule_some (st : InlineState) (silent : Bool) (st' : InlineState)
    (h : inlineMathRule st silent = some st') :
    findDollar st.src (st.pos + 1) st.posMax < st.posMax
    ∧ st'.pos = findDollar st.src (st.pos + 1) st.posMax + 1
    ∧ st'.src = st.src
    ∧ st'.posMax = st.posMax
    ∧ trimChars (slice st.src (st.pos + 1) (findDollar st.src (st.pos + 1) st.posMax)) ≠ []
    ∧ st'.tokens = (if silent then st.tokens
        else st.tokens ++
          [Token.math_inline (slice st.src (st.pos + 1) (findDollar st.src (st.pos + 1) st.posMax))]) := by
  simp only [inlineMathRule] at h
  split at h
  · exact Option.noConfusion h
  split at h
  · exact Option.noConfusion h
  split at h
  · exact Option.noConfusion h
  split at h
  · exact Option.noConfusion h
  split at h
  · exact Option.noConfusion h
  rename_i hne hge hesc hdollar htrim
  injection h with h2
  subst h2
  refine ⟨by omega, rfl, rfl, rfl, htrim, rfl⟩

/-- The inline math rule declines whenever the dollar span it would match
has blank content. -/
theorem inline_blank_declines (st : InlineState) (silent : Bool)
    (h : trimChars (slice st.src (st.pos + 1) (findDollar st.src (st.pos + 1) st.posMax)) = []) :
    inlineMathRule st silent = none := by
  simp only [inlineMathRule]
  repeat' split
  all_goals rfl

/-- The inline math rule declines whenever the character before the
current dollar is a backslash. -/
theorem inline_escaped_declines (st : InlineState) (silent : Bool)
    (h0 : 0 < st.pos) (h1 : charAt st.src (st.pos - 1) = '\\') :
    inlineMathRule st silent = none := by
  simp only [inlineMathRule]
  repeat' split
  all_goals try rfl
  all_goals exact absurd (And.intro h0 h1) (by assumption)

/-- The silent block math rule never changes the state. -/
theorem blockMathRule_silent_id (st : BlockState) (sl el : Nat) (st' : BlockState)
    (h : blockMathRule st sl el true = some st') : st' = st := by
  simp only [blockMathRule] at h
  repeat' split at h
  all_goals try exact Option.noConfusion h
  all_goals try exact absurd trivial (by assumption)
  all_goals injection h with h2
  all_goals exact h2.symm

/- ------------------------------------------------------------------ -/
/- Lemmas about the block math rule                                    -/
/- ------------------------------------------------------------------ -/

theorem indexOfGo_some (l pat : List Char) :
    ∀ (fuel i j : Nat), indexOfGo l pat fuel i = some j →
      i ≤ j ∧ slice l j (j + pat.length) = pat := by
  intro fuel
  induction fuel with
  | zero =>
    intro i j h
    exact Option.noConfusion h
  | succ fuel ih =>
    intro i j h
    simp only [indexOfGo] at h
    split at h
    · exact Option.noConfusion h
    · split at h
      · rename_i hsl
        injection h with h2
        subst h2
        exact ⟨Nat.le_refl i, hsl⟩
      · obtain ⟨h1, h2⟩ := ih (i + 1) j h
        exact ⟨by omega, h2⟩

theorem indexOfFrom_some (l pat : List Char) (i j : Nat)
    (h : indexOfFrom l pat i = some j) :
    i ≤ j ∧ slice l j (j + pat.length) = pat :=
  indexOfGo_some l pat (l.length + 1 - i) i j h

theorem slice_pair (l : List Char) (i : Nat) (a b : Char)
    (h : slice l i (i + 2) = a :: b :: []) :
    charAt l i = a ∧ charAt l (i + 1) = b := by
  have h2 : i + 2 - i = 2 := by omega
  simp only [slice, h2] at h
  rcases hd : l.drop i with _ | ⟨x, t⟩
  · rw [hd] at h
    simp at h
  · rcases t with _ | ⟨y, t2⟩
    · rw [hd] at h
      simp at h
    · rw [hd] at h
      simp only [List.take, List.cons.injEq] at h
      obtain ⟨hx, hy, _⟩ := h
      have q1 : l[i]? = some x := by
        have := List.getElem?_drop l i 0
        rw [hd] at this
        simpa using this.symm
      have q2 : l[i + 1]? = some y := by
        have := List.getElem?_drop l i 1
        rw [hd] at this
        simpa using this.symm
      constructor
      · simp [charAt, List.getD_eq_getElem?_getD, q1, hx]
      · simp [charAt, List.getD_eq_getElem?_getD, q2, hy]

theorem findCloseGo_none (st : BlockState) (el : Nat) :
    ∀ (fuel j : Nat),
      (∀ j2, j ≤ j2 → j2 < el → trimChars (lineText st j2) ≠ ('$' :: '$' :: [])) →
      findCloseGo st el fuel j = none := by
  intro fuel
  induction fuel with
  | zero =>
    intro j h
    rfl
  | succ fuel ih =>
    intro j h
    simp only [findCloseGo]
    repeat' split
    · rfl
    · rename_i hle hc
      exact absurd hc (h j (Nat.le_refl j) (by omega))
    · exact ih (j + 1) (fun j2 hj2 hlt => h j2 (by omega) hlt)

/- ------------------------------------------------------------------ -/
/- C2, C3, C4, C5 and C10                                              -/
/- ------------------------------------------------------------------ -/

/-- C3: when a line begins with two dollars, no further dollar pair sits
on that line and no later line trims to exactly two dollars, the block
math rule declines without touching the state (the rule returns none, so
nothing is consumed and no token is pushed), and such an unterminated
opening falls through to ordinary paragraph handling, shown on a concrete
document. The first hypothesis records that a line's end mark always sits
on a newline or at the end of input, never on a dollar sign. -/
theorem unterminated_block_math_declines :
    (∀ (st : BlockState) (sl el : Nat) (silent : Bool),
      charAt st.src (st.eMarks.getD sl 0) ≠ '$' →
      (∀ i, st.bMarks.getD sl 0 + st.tShift.getD sl 0 + 2 ≤ i →
        i + 1 < st.eMarks.getD sl 0 →
        ¬(charAt st.src i = '$' ∧ charAt st.src (i + 1) = '$')) →
      (∀ j, sl + 1 ≤ j → j < el → trimChars (lineText st j) ≠ ('$' :: '$' :: [])) →
      blockMathRule st sl el silent = none)
    ∧ tokenizeDoc (("$$\nx^2").data) = [Token.paragraph (("$$\nx^2").data)] := by
  constructor
  · intro st sl el silent hend hnos hnoc
    have hclose : findCloseLine st (sl + 1) el = none :=
      findCloseGo_none st el (el - (sl + 1)) (sl + 1)
        (fun j2 hj2 hlt => hnoc j2 hj2 hlt)
    simp only [blockMathRule]
    rcases hidx : indexOfFrom st.src ('$' :: '$' :: [])
        (st.bMarks.getD sl 0 + st.tShift.getD sl 0 + 2) with _ | s
    · simp only [hclose]
      repeat' split
      all_goals rfl
    · obtain ⟨hs1, hs2⟩ := indexOfFrom_some _ _ _ _ hidx
      obtain ⟨ha, hb⟩ := slice_pair st.src s '$' '$' hs2
      have hge : st.eMarks.getD sl 0 ≤ s := by
        by_contra hlt
        push_neg at hlt
        by_cases hcase : s + 1 < st.eMarks.getD sl 0
        · exact hnos s hs1 hcase ⟨ha, hb⟩
        · have heq : s + 1 = st.eMarks.getD sl 0 := by omega
          exact hend (heq ▸ hb)
      simp only [hclose]
      repeat' split
      all_goals first
        | rfl
        | (exfalso; omega)
  · decide

theorem unterminated_block_math_declines_witness :
    blockMathRule stUnterm 0 2 false = none :=
  unterminated_block_math_declines.1 stUnterm 0 2 false (by decide)
    (by
      intro i h1 h2 hcc
      have e1 : stUnterm.eMarks.getD 0 0 = 2 := by decide
      have e0 : stUnterm.bMarks.getD 0 0 + stUnterm.tShift.getD 0 0 = 0 := by decide
      rw [e1] at h2
      rw [e0] at h1
      omega)
    (by
      intro j h1 h2
      have hj : j = 1 := by omega
      subst hj
      decide)

/-- C5: the multi-line and the single-line block form with the same math
source produce the same result: both documents tokenize to exactly one
math_block token with the trimmed content x^2, and for every math engine
the rendered output of each document is exactly one katex-block container
(one application of the math_block render rule to that content). -/
theorem block_math_forms_agree :
    tokenizeDoc (("$$\n x^2 \n$$").data) = [Token.math_block (("x^2").data)]
    ∧ tokenizeDoc (("$$x^2$$").data) = [Token.math_block (("x^2").data)]
    ∧ ∀ k : KatexFn,
        renderTokens k (tokenizeDoc (("$$\n x^2 \n$$").data)) = renderMathBlock k (("x^2").data)
        ∧ renderTokens k (tokenizeDoc (("$$x^2$$").data)) = renderMathBlock k (("x^2").data) := by
  have h1 : tokenizeDoc (("$$\n x^2 \n$$").data) = [Token.math_block (("x^2").data)] := by
    decide
  have h2 : tokenizeDoc (("$$x^2$$").data) = [Token.math_block (("x^2").data)] := by
    decide
  refine ⟨h1, h2, fun k => ⟨?_, ?_⟩⟩
  · rw [h1]
    simp [renderTokens, renderToken]
  · rw [h2]
    simp [renderTokens, renderToken]

/- ------------------------------------------------------------------ -/
/- C2, C4 and C10                                                      -/
/- ------------------------------------------------------------------ -/

/-- C2, counterexample: an empty block form does emit a math token: the
single-line branch of blockMathRule has no blank-content check, so the
document consisting of the four characters dollar-dollar-dollar-dollar
tokenizes to exactly one math_block token with empty content. -/
theorem empty_block_math_counterexample :
    tokenizeDoc (("$$$$").data) = [Token.math_block []]
    ∧ countMath (tokenizeDoc (("$$$$").data)) = 1 := by
  exact ⟨by decide, by decide⟩

/-- C2, amended: the inline rule declines whenever the dollar span it
would match has empty or whitespace-only content, an adjacent dollar pair
in prose and a stray spaced dollar pair produce zero math tokens, but the
block rule does emit a math_block token with empty content for an
empty or whitespace-only single-line region. -/
theorem empty_inline_math_declines :
    (∀ (st : InlineState) (silent : Bool),
      trimChars (slice st.src (st.pos + 1) (findDollar st.src (st.pos + 1) st.posMax)) = [] →
      inlineMathRule st silent = none)
    ∧ countMath (inlineScan (("a $$ b").data)).tokens = 0
    ∧ countMath (inlineScan (("$ $").data)).tokens = 0
    ∧ tokenizeDoc (("$$$$").data) = [Token.math_block []]
    ∧ tokenizeDoc (("$$ $$").data) = [Token.math_block []] := by
  refine ⟨inline_blank_declines, by decide, by decide, by decide, by decide⟩

theorem empty_inline_math_declines_witness :
    inlineMathRule stEmptySpan false = none :=
  empty_inline_math_declines.1 stEmptySpan false (by decide)

/-- C4: a dollar immediately preceded by a backslash is never an inline
math delimiter: such a dollar never opens a span (the rule declines), the
closing delimiter a successful match selects is never preceded by a
backslash, and the escaped-dollar document renders the literal text with
zero math tokens. -/
theorem escaped_dollar_never_delimiter :
    (∀ (st : InlineState) (silent : Bool), 0 < st.pos →
      charAt st.src (st.pos - 1) = '\\' → inlineMathRule st silent = none)
    ∧ (∀ (st : InlineState) (silent : Bool) (st' : InlineState),
        inlineMathRule st silent = some st' →
        charAt st.src (st'.pos - 1) = '$' ∧ charAt st.src (st'.pos - 2) ≠ '\\')
    ∧ countMath (inlineScan (("\\$10").data)).tokens = 0
    ∧ textOfTokens (inlineScan (("\\$10").data)).tokens = ("$10").data := by
  refine ⟨inline_escaped_declines, ?_, by decide, by decide⟩
  intro st silent st' h
  obtain ⟨he, hpos, _, _, _, _⟩ := inlineMathRule_some st silent st' h
  have hf := (findDollar_spec st.src (st.pos + 1) st.posMax).1 he
  constructor
  · rw [hpos, Nat.add_sub_cancel]
    exact hf.1
  · have h2 : findDollar st.src (st.pos + 1) st.posMax + 1 - 2 =
        findDollar st.src (st.pos + 1) st.posMax - 1 := by omega
    rw [hpos, h2]
    exact hf.2

theorem escaped_dollar_never_delimiter_witness :
    inlineMathRule stEscDollar false = none
    ∧ (charAt stIn.src (stInAfterF.pos - 1) = '$' ∧ charAt stIn.src (stInAfterF.pos - 2) ≠ '\\') :=
  ⟨escaped_dollar_never_delimiter.1 stEscDollar false (by decide) (by decide),
   escaped_dollar_never_delimiter.2.1 stIn false stInAfterF (by decide)⟩

/-- C10: in silent mode the inline math rule pushes no token but still
advances the cursor past the closing delimiter whenever it matches, while
a silent block math rule match returns before any state change. -/
theorem silent_mode_frame :
    (∀ (st st' : InlineState), inlineMathRule st true = some st' →
      st'.tokens = st.tokens ∧ st.pos < st'.pos ∧ charAt st.src (st'.pos - 1) = '$')
    ∧ (∀ (st : BlockState) (sl el : Nat) (st' : BlockState),
        blockMathRule st sl el true = some st' → st' = st) := by
  refine ⟨?_, blockMathRule_silent_id⟩
  intro st st' h
  obtain ⟨he, hpos, _, _, _, htok⟩ := inlineMathRule_some st true st' h
  have hf := (findDollar_spec st.src (st.pos + 1) st.posMax).1 he
  have hge := (findDollar_spec st.src (st.pos + 1) st.posMax).2
  refine ⟨by simpa using htok, by omega, ?_⟩
  rw [hpos, Nat.add_sub_cancel]
  exact hf.1

theorem silent_mode_frame_witness :
    (stInAfter.tokens = stIn.tokens ∧ stIn.pos < stInAfter.pos ∧
      charAt stIn.src (stInAfter.pos - 1) = '$')
    ∧ stBlk = stBlk :=
  ⟨silent_mode_frame.1 stIn stInAfter (by decide),
   silent_mode_frame.2 stBlk 0 1 stBlk (by decide)⟩

/- ------------------------------------------------------------------ -/
/- Lemmas about the sanitizer                                          -/
/- ------------------------------------------------------------------ -/

theorem appendNL_nil : ∀ (a : NodeList), appendNL a NodeList.nil = a
  | NodeList.nil => rfl
  | NodeList.cons n r => by
    show NodeList.cons n (appendNL r NodeList.nil) = _
    rw [appendNL_nil r]

theorem appendNL_assoc : ∀ (a b c : NodeList),
    appendNL (appendNL a b) c = appendNL a (appendNL b c)
  | NodeList.nil, _, _ => rfl
  | NodeList.cons n r, b, c => by
    show NodeList.cons n (appendNL (appendNL r b) c) = _
    rw [appendNL_assoc r b c]
    rfl

theorem sanitizeL_append : ∀ (a b : NodeList),
    sanitizeL (appendNL a b) = appendNL (sanitizeL a) (sanitizeL b)
  | NodeList.nil, _ => rfl
  | NodeList.cons n r, b => by
    show appendNL (sanitizeNode n) (sanitizeL (appendNL r b)) = _
    rw [sanitizeL_append r b, ← appendNL_assoc]
    rfl

theorem safeL_append : ∀ (a b : NodeList),
    safeL (appendNL a b) = (safeL a && safeL b)
  | NodeList.nil, _ => by simp [appendNL, safeL]
  | NodeList.cons n r, b => by
    show safeL (NodeList.cons n (appendNL r b)) = _
    simp only [safeL, safeL_append r b, Bool.and_assoc]

theorem filter_self_idem (p : α → Bool) : ∀ (l : List α),
    (l.filter p).filter p = l.filter p
  | [] => rfl
  | x :: l => by
    by_cases hx : p x
    · simp [List.filter, hx, filter_self_idem p l]
    · simp [List.filter, hx, filter_self_idem p l]

theorem not_drop_not_script (tag : List Char)
    (h : ¬(dropWithContent tag = true)) : tag ≠ ("script").data := by
  intro heq
  exact h (by simp [dropWithContent, heq])

theorem data_attr_not_on (name : List Char)
    (h : startsWithL (("data-").data) name = true) :
    startsWithL (("on").data) name = false := by
  simp only [startsWithL, slice, List.drop_zero, decide_eq_true_eq] at h
  simp only [startsWithL, slice, List.drop_zero, decide_eq_false_iff_not]
  intro hon
  cases name with
  | nil =>
    rw [List.take_nil] at h
    exact absurd h (by decide)
  | cons c rest =>
    have h5 : ((("data-").data).length - 0) = 5 := rfl
    have h2 : ((("on").data).length - 0) = 2 := rfl
    rw [h5] at h
    rw [h2] at hon
    simp only [List.take_succ_cons, List.cons.injEq] at h hon
    exact absurd (h.1 ▸ hon.1) (by decide)

theorem allowedAttr_not_on (name : List Char) (h : allowedAttr name = true) :
    startsWithL (("on").data) name = false := by
  simp only [allowedAttr, Bool.or_eq_true, decide_eq_true_eq] at h
  repeat' rcases h with h|h
  all_goals first
    | decide
    | (exact data_attr_not_on _ (by assumption))

mutual
/-- Sanitized output of one node contains no script element and no
event-handler attribute. -/
theorem sanitize_safeN : ∀ (n : HNode), safeL (sanitizeNode n) = true
  | HNode.text s => rfl
  | HNode.elem tag attrs ch => by
    simp only [sanitizeNode]
    split
    · rfl
    · split
      · rename_i hdrop hallow
        have ht := not_drop_not_script tag hdrop
        have hattrs : (attrs.filter (fun p => allowedAttr p.1)).all
            (fun p => !startsWithL (("on").data) p.1) = true := by
          apply List.all_eq_true.mpr
          intro p hp
          have := List.of_mem_filter hp
          simp [allowedAttr_not_on p.1 this]
        simp [safeL, safeN, ht, hattrs, sanitize_safeL ch]
      · exact sanitize_safeL ch
/-- Sanitized output of a node sequence contains no script element and no
event-handler attribute. -/
theorem sanitize_safeL : ∀ (l : NodeList), safeL (sanitizeL l) = true
  | NodeList.nil => rfl
  | NodeList.cons n r => by
    show safeL (appendNL (sanitizeNode n) (sanitizeL r)) = true
    rw [safeL_append, sanitize_safeN n, sanitize_safeL r]
    rfl
end

mutual
/-- A second sanitization pass leaves a sanitized node unchanged. -/
theorem sanitizeN_idem : ∀ (n : HNode), sanitizeL (sanitizeNode n) = sanitizeNode n
  | HNode.text s => rfl
  | HNode.elem tag attrs ch => by
    simp only [sanitizeNode]
    split
    · rfl
    · split
      · rename_i hdrop hallow
        show appendNL (sanitizeNode (HNode.elem tag (attrs.filter (fun p => allowedAttr p.1))
          (sanitizeL ch))) (sanitizeL NodeList.nil) = _
        simp only [sanitizeNode, if_neg hdrop, if_pos hallow, sanitizeL,
          filter_self_idem, sanitizeL_idem ch, appendNL]
      · exact sanitizeL_idem ch
/-- A second sanitization pass leaves a sanitized node sequence unchanged. -/
theorem sanitizeL_idem : ∀ (l : NodeList), sanitizeL (sanitizeL l) = sanitizeL l
  | NodeList.nil => rfl
  | NodeList.cons n r => by
    show sanitizeL (appendNL (sanitizeNode n) (sanitizeL r)) = _
    rw [sanitizeL_append, sanitizeN_idem n, sanitizeL_idem r]
    rfl
end

/- ------------------------------------------------------------------ -/
/- C6 and C8                                                           -/
/- ------------------------------------------------------------------ -/

/-- The mermaid branch of the fence renderer, as an equation. -/
theorem fence_mermaid_eq (h : Hljs) (tok : FenceTok)
    (hinfo : trimChars tok.info = ("mermaid").data) :
    fenceRule h tok =
      ("<div class=\"mermaid\">").data ++ escapeHtml tok.content ++ ("</div>").data := by
  simp [fenceRule, hinfo]

/-- C6: a fence token whose trimmed info string is the mermaid tag renders
as a bare mermaid div whose content is the HTML-escaped fence body (no
pre/code wrapper), and HTML-unescaping the escaped content recovers the
original body exactly for every string. -/
theorem mermaid_fence_escape_roundtrip :
    (∀ (h : Hljs) (tok : FenceTok), trimChars tok.info = ("mermaid").data →
      fenceRule h tok =
        ("<div class=\"mermaid\">").data ++ escapeHtml tok.content ++ ("</div>").data)
    ∧ (∀ s : List Char, unescapeHtml (escapeHtml s) = s) := by
  constructor
  · exact fence_mermaid_eq
  · exact unescape_escape

theorem mermaid_fence_escape_roundtrip_witness :
    fenceRule hljsNone tokMermaid =
      ("<div class=\"mermaid\">").data ++ escapeHtml tokMermaid.content ++ ("</div>").data
    ∧ unescapeHtml (escapeHtml (("a<b&lt;").data)) = ("a<b&lt;").data :=
  ⟨mermaid_fence_escape_roundtrip.1 hljsNone tokMermaid (by decide),
   mermaid_fence_escape_roundtrip.2 _⟩

/-- C8: when the math engine throws, the math_block and math_inline render
rules return a math-error fragment carrying the escaped exception message
instead of propagating the exception. -/
theorem math_render_error_fragment :
    (∀ (k : KatexFn) (c : List Char) (e : Option (List Char)),
      k true c = Except.error e →
      renderMathBlock k c =
        ("<div class=\"math-error\">Math error: ").data ++ escapeHtml (errMsg e) ++ ("</div>").data)
    ∧ (∀ (k : KatexFn) (c : List Char) (e : Option (List Char)),
      k false c = Except.error e →
      renderMathInline k c =
        ("<span class=\"math-error\">Math error: ").data ++ escapeHtml (errMsg e) ++ ("</span>").data) := by
  constructor
  · intro k c e hk; simp [renderMathBlock, hk]
  · intro k c e hk; simp [renderMathInline, hk]

/-- C7, counterexample: a fence token whose info string contains a double
quote makes the fence renderer emit markup whose language class attribute
is broken open by the quote: the output fails lexical well-formedness (an
extra attribute fragment is injected), so the renderer does not produce
valid self-contained HTML for arbitrary info strings. -/
theorem fence_attr_quote_counterexample :
    htmlWellFormed (fenceRule hljsNone tokQuote) = false
    ∧ fenceRule hljsNone tokQuote =
        ("<pre class=\"hljs\"><code class=\"language-a\"b\">c</code></pre>").data := by
  constructor
  · decide
  · decide

/-- C7, amended: the fence renderer is total (modelled here even when the
highlighter throws), and its output is lexically well-formed HTML provided
the trimmed info string contains no double quote and the highlighter
output, when used, is scanner-neutral text. -/
theorem fence_wellformed_no_quote (h : Hljs) (tok : FenceTok)
    (hq : '"' ∉ trimChars tok.info)
    (hn : ∀ r, scanHtml SMode.text (mdHighlight h tok.content (trimChars tok.info) ++ r) =
      scanHtml SMode.text r) :
    htmlWellFormed (fenceRule h tok) = true := by
  have pDiv : ∀ r, scanHtml SMode.text ((("<div class=\"mermaid\">").data) ++ r) =
      scanHtml SMode.text r := fun r => rfl
  have pCode : ∀ r, scanHtml SMode.text ((("<pre class=\"hljs\"><code").data) ++ ('>' :: r)) =
      scanHtml SMode.text r := fun r => rfl
  have pLang : ∀ r, scanHtml SMode.text ((("<pre class=\"hljs\"><code class=\"language-").data) ++ r) =
      scanHtml SMode.value r := fun r => rfl
  have pVal : ∀ r, scanHtml SMode.value ('"' :: '>' :: r) = scanHtml SMode.text r :=
    fun r => rfl
  by_cases hm : trimChars tok.info = ("mermaid").data
  · rw [fence_mermaid_eq h tok hm]
    show scanHtml SMode.text
      ((("<div class=\"mermaid\">").data) ++ (escapeHtml tok.content ++ (("</div>").data))) = true
    rw [pDiv, scanText_append _ (escapeHtml_no_lt tok.content)]
    rfl
  · show scanHtml SMode.text (fenceRule h tok) = true
    rw [fenceRule]
    simp only [if_neg hm]
    by_cases hz : mdHighlight h tok.content (trimChars tok.info) = []
    all_goals by_cases hlang : trimChars tok.info = []
    · -- highlighter output empty, no language class
      rw [hlang] at hz
      simp only [hlang, ne_eq, not_true_eq_false, if_false, List.nil_append, hz,
        eq_self_iff_true, if_true]
      show scanHtml SMode.text
        ((("<pre class=\"hljs\"><code").data) ++
          ('>' :: (escapeHtml tok.content ++ (("</code></pre>").data)))) = true
      rw [pCode, scanText_append _ (escapeHtml_no_lt tok.content)]
      rfl
    · -- highlighter output empty, language class present
      simp only [hz, eq_self_iff_true, if_true, ne_eq, hlang, not_false_eq_true]
      simp only [List.append_assoc, List.singleton_append, List.cons_append]
      show scanHtml SMode.text
        ((("<pre class=\"hljs\"><code class=\"language-").data) ++
          (trimChars tok.info ++
            ('"' :: '>' :: (escapeHtml tok.content ++ (("</code></pre>").data))))) = true
      rw [pLang, scanValue_append _ hq, pVal,
        scanText_append _ (escapeHtml_no_lt tok.content)]
      rfl
    · -- highlighter output used, no language class
      rw [hlang] at hz hn
      simp only [hlang, ne_eq, not_true_eq_false, if_false, List.nil_append, if_neg hz]
      show scanHtml SMode.text
        ((("<pre class=\"hljs\"><code").data) ++
          ('>' :: (mdHighlight h tok.content [] ++ (("</code></pre>").data)))) = true
      rw [pCode, hn]
      rfl
    · -- highlighter output used, language class present
      simp only [ne_eq, hlang, not_false_eq_true, if_true, if_neg hz]
      simp only [List.append_assoc, List.singleton_append, List.cons_append]
      show scanHtml SMode.text
        ((("<pre class=\"hljs\"><code class=\"language-").data) ++
          (trimChars tok.info ++
            ('"' :: '>' :: (mdHighlight h tok.content (trimChars tok.info) ++
              (("</code></pre>").data))))) = true
      rw [pLang, scanValue_append _ hq, pVal, hn]
      rfl

theorem fence_wellformed_no_quote_witness :
    htmlWellFormed (fenceRule hljsNone tokJs) = true :=
  fence_wellformed_no_quote hljsNone tokJs (by decide)
    (fun r => scanText_append _ (by decide) r)

/- ------------------------------------------------------------------ -/
/- C1 and C9                                                           -/
/- ------------------------------------------------------------------ -/

/-- C1: whenever renderMarkdownSafe runs without sanitize explicitly set
to false, the sanitization pass runs on the rendered document, and
sanitized output contains no script element and no event-handler
attribute anywhere; in particular the XSS probe document serializes to
output containing neither an opening script tag nor the word alert, and
the event-handler probe output contains no onerror. The sanitizer and the
probes' rendered documents are modelled from the spec, DOMPurify and the
host renderer being external dependencies. -/
theorem sanitize_strips_scripts_and_handlers :
    (∀ l : NodeList, safeL (sanitizeL l) = true)
    ∧ (∀ (rendered : NodeList) (opts : RenderOpts), opts.sanitize ≠ some false →
        renderMarkdownSafeModel rendered opts = serializeL (sanitizeL rendered))
    ∧ containsSub (renderMarkdownSafeModel probeScript {}) (("<script").data) = false
    ∧ containsSub (renderMarkdownSafeModel probeScript {}) (("alert").data) = false
    ∧ containsSub (renderMarkdownSafeModel probeImg {}) (("onerror").data) = false := by
  refine ⟨sanitize_safeL, ?_, by decide, by decide, by decide⟩
  intro rendered opts h
  simp [renderMarkdownSafeModel, h]

theorem sanitize_strips_scripts_and_handlers_witness :
    safeL (sanitizeL probeImg) = true
    ∧ renderMarkdownSafeModel probeScript {} = serializeL (sanitizeL probeScript) :=
  ⟨sanitize_strips_scripts_and_handlers.1 probeImg,
   sanitize_strips_scripts_and_handlers.2.1 probeScript {} (by decide)⟩

/-- C9: the sanitization pass is idempotent: applying it a second time to
any sanitized rendered document changes nothing, at the document level
and hence at the serialized-output level. The sanitizer is modelled from
the spec, DOMPurify being an external dependency. -/
theorem sanitize_idempotent :
    ∀ l : NodeList, sanitizeL (sanitizeL l) = sanitizeL l
      ∧ serializeL (sanitizeL (sanitizeL l)) = serializeL (sanitizeL l) := by
  intro l
  exact ⟨sanitizeL_idem l, by rw [sanitizeL_idem l]⟩

theorem math_render_error_fragment_witness :
    renderMathBlock kBoom (("\\bad").data) =
      ("<div class=\"math-error\">Math error: ").data ++
        escapeHtml (errMsg (some (("boom").data))) ++ ("</div>").data
    ∧ renderMathInline kBoom (("\\bad").data) =
      ("<span class=\"math-error\">Math error: ").data ++
        escapeHtml (errMsg (some (("boom").data))) ++ ("</span>").data :=
  ⟨math_render_error_fragment.1 kBoom (("\\bad").data) (some (("boom").data)) rfl,
   math_render_error_fragment.2 kBoom (("\\bad").data) (some (("boom").data)) rfl⟩

end MdPdf
